import Mathlib

/-!
# pddc: a dynamic-DNS updater

A shallow embedding of `main.go` and the properties of its record filter, of its
previous-IP store and of a whole run of `main`.

Go strings are byte sequences; a byte is a natural number below 256.  The
operating system, the HTTP server and the package-level variables are explicit
state: `Env` holds what the outside world answers, `World` what the process has
done so far (the requests it sent with their responses, its accesses to the cache
file, the content of that file).

Three library layers are modelled rather than embedded: a JSON body is the value that is
marshalled or the fields that `Decode` fills, `encoding/gob` is its wire format for one
string, and log output is left out.
-/

set_option autoImplicit false

namespace Pddc

/-! ## Strings -/

/-- A Go `string`: a sequence of bytes. -/
abbrev GoString := List Nat

/-- The bytes of an ASCII string literal of the source. -/
def ascii (s : String) : GoString := s.data.map Char.toNat

namespace strings

/-- Go `strings.Contains(s, substr)`: `substr` occurs in `s` at some offset. -/
def Contains : GoString → GoString → Bool
  | [], substr => substr.isEmpty
  | c :: s, substr => substr.isPrefixOf (c :: s) || Contains s substr

/-- The scan behind `strings.Split` for a non-empty separator: `skip` counts the bytes
of a matched separator still to pass over, `cur` is the piece being collected. -/
def splitScan (sep : GoString) : GoString → Nat → GoString → List GoString
  | [], _, cur => [cur]
  | _ :: s, skip + 1, cur => splitScan sep s skip cur
  | c :: s, 0, cur =>
      if sep.isPrefixOf (c :: s) then cur :: splitScan sep s (sep.length - 1) []
      else splitScan sep s 0 (cur ++ [c])

/-- Go `strings.Split(s, sep)` for a non-empty `sep`: the pieces of `s` between the
leftmost non-overlapping occurrences of `sep`. -/
def Split (s sep : GoString) : List GoString := splitScan sep s 0 []

end strings

/-! ## Data model -/

/-- The `Secrets` struct. -/
structure Secrets where
  key : GoString
  secret : GoString
  deriving DecidableEq

/-- The `Record` struct (fields `ID`, `Name`, `RecordType`, `Content`, `TTL`). -/
structure Record where
  id : GoString
  name : GoString
  recordType : GoString
  content : GoString
  ttl : GoString
  deriving DecidableEq

/-- The `EditRecordReq` struct. -/
structure EditRecordReq where
  key : GoString
  secret : GoString
  name : GoString
  recordType : GoString
  content : GoString
  ttl : GoString
  deriving DecidableEq

/-! ## The record filter -/

/-- One iteration of the loop of `filterRecords`: `fr` is the slice built so far, `v` the
loop's copy of the current record. -/
def filterRecordsBody (domain ip : GoString) (fr : List Record) (v : Record) : List Record :=
  if strings.Contains v.name domain && v.recordType == ascii "A" && v.content != ip then
    let v := { v with content := ip }
    let v :=
      if v.name == domain then { v with name := [] }
      else { v with name := (strings.Split v.name (ascii ".")).headD [] }
    fr ++ [v]
  else fr

/-- The function `filterRecords(ip, records)`; `domain` is the value of the package-level
variable `domain` that the function reads. -/
def filterRecords (domain ip : GoString) (records : List Record) : List Record :=
  records.foldl (filterRecordsBody domain ip) []

/-- The three conditions of the specification for a record to be selected: its name
contains the domain, its type is "A", its content differs from `ip`. -/
def Selected (domain ip : GoString) (r : Record) : Prop :=
  domain <:+: r.name ∧ r.recordType = ascii "A" ∧ r.content ≠ ip

instance Selected.decidable (domain ip : GoString) : DecidablePred (Selected domain ip) :=
  fun _ => inferInstanceAs (Decidable (_ ∧ _ ∧ _))

/-- The rewriting of the specification for a selected record: the content becomes `ip`,
the name becomes empty when it is the domain and else its part before the first ".". -/
def rewritten (domain ip : GoString) (r : Record) : Record :=
  { r with
    content := ip
    name := if r.name = domain then [] else r.name.takeWhile (fun b => b != '.'.toNat) }

/-! ## The gob encoding of one string

`setPrevIP` and `getPrevIP` go through `encoding/gob`.  For a top-level string the
wire format is one message: its length, the type id of `string`, a zero field delta and
the length-prefixed bytes. -/

namespace gob

/-- The constant `uint64Size`. -/
def uint64Size : Nat := 8

/-- The constant `tooBig` on a 64-bit platform. -/
def tooBig : Nat := 2 ^ 33

/-- The type id `tString` of the predefined type `string`. -/
def tString : Int := 6

/-- The eight bytes written by `binary.BigEndian.PutUint64`. -/
def putUint64 (x : Nat) : List Nat :=
  [x / 2 ^ 56 % 256, x / 2 ^ 48 % 256, x / 2 ^ 40 % 256, x / 2 ^ 32 % 256,
   x / 2 ^ 24 % 256, x / 2 ^ 16 % 256, x / 2 ^ 8 % 256, x % 256]

/-- The method `encodeUint` of the encoder state: a value up to `0x7F` is one byte, a larger
one is its big-endian bytes without the leading zero bytes, preceded by the negated byte
count. -/
def encodeUint (x : Nat) : List Nat :=
  if x ≤ 0x7F then [x]
  else
    let buf := putUint64 x
    let bc := (buf.takeWhile (fun b => b == 0)).length
    (256 + bc - uint64Size) % 256 :: buf.drop bc

/-- The method `encodeInt`: the sign goes to bit 0. -/
def encodeInt (i : Int) : List Nat :=
  if i < 0 then encodeUint ((2 * (-i - 1)).toNat + 1) else encodeUint (2 * i).toNat

/-- What `Encoder.Encode` writes for a string value, `none` when it reports
"message too big". -/
def encodeString (s : GoString) : Option (List Nat) :=
  let message := encodeInt tString ++ encodeUint 0 ++ encodeUint s.length ++ s
  if message.length ≥ tooBig then none
  else some (encodeUint message.length ++ message)

/-- The function `decodeUintReader` and the method `decodeUint` of the decoder state: the
value read and the bytes after it, `none` on an error. -/
def decodeUint : List Nat → Option (Nat × List Nat)
  | [] => none
  | b :: rest =>
      if b ≤ 0x7F then some (b, rest)
      else
        let n := 256 - b
        if n > uint64Size then none
        else if rest.length < n then none
        else some ((rest.take n).foldl (fun x c => (x <<< 8 ||| c) % 2 ^ 64) 0, rest.drop n)

/-- The function `toInt`: the inverse of the sign folding of `encodeInt`. -/
def toInt (x : Nat) : Int :=
  if x % 2 = 1 then -((x / 2 : Nat) : Int) - 1 else ((x / 2 : Nat) : Int)

/-- What `Decoder.Decode` stores into a `string` variable when reading `input`, `none` when
it returns an error.  A stream that opens with a type definition (a negative type id) is
not one that `Encoder.Encode` writes for a string and counts as an error here. -/
def decodeString (input : List Nat) : Option GoString :=
  match decodeUint input with
  | none => none
  | some (nbytes, r) =>
    if nbytes ≥ tooBig then none
    else if r.length < nbytes then none
    else
      match decodeUint (r.take nbytes) with
      | none => none
      | some (u, buf) =>
        if toInt u ≠ tString then none
        else
          match decodeUint buf with
          | none => none
          | some (delta, buf) =>
            if delta ≠ 0 then none
            else
              match decodeUint buf with
              | none => none
              | some (n, buf) =>
                if buf.length < n ∨ tooBig ≤ n then none else some (buf.take n)

end gob

/-! ## The outside world -/

/-- The value marshalled into the JSON body of a request. -/
inductive Body where
  | secrets (s : Secrets)
  | edit (r : EditRecordReq)
  deriving DecidableEq

/-- A POST request as `postRequest` builds it. -/
structure Request where
  url : GoString
  body : Body
  deriving DecidableEq

/-- An HTTP response: its status code and its body as `json.Decode` reads it, into an
`IPResp` (field `IP`) and into a `RecordsResp` (field `Records`). -/
structure Response where
  statusCode : Nat
  yourIp : GoString
  records : List Record
  deriving DecidableEq

/-- One call of `postRequest`: the request and the response, `none` when `client.Do`
gave none. -/
structure Exchange where
  request : Request
  response : Option Response
  deriving DecidableEq

/-- An access to the cache file `$HOME/.pddc`. -/
inductive FileOp where
  | openFile
  | createFile
  | writeFile (data : List Nat)
  deriving DecidableEq

/-- An `error` value returned inside the program. -/
inductive Error where
  | status (code : Nat)
  | notOpened
  deriving DecidableEq

/-- The state of the process and of its cache file: the package-level variables
`secrets`, `domain` and `currentIP`, the content of `$HOME/.pddc` (`none`: no such file),
the calls of `postRequest` made so far and the accesses to the cache file so far. -/
structure World where
  secrets : Secrets
  domain : GoString
  currentIP : GoString
  file : Option (List Nat)
  http : List Exchange
  fileOps : List FileOp
  deriving DecidableEq

/-- What the process cannot control: the answer to a request given the exchanges before
it, and whether `os.Create` succeeds on the cache file. -/
structure Env where
  respond : List Exchange → Request → Option Response
  creatable : Bool

/-- How a piece of the program ends: it returns `a`, it exits through `log.Fatal`, or it
panics on a nil dereference. -/
inductive Outcome (α : Type) where
  | ok (a : α) (w : World)
  | fatal (w : World)
  | panic (w : World)
  deriving DecidableEq

/-- The state in which a piece of the program ends. -/
def Outcome.world {α : Type} : Outcome α → World
  | .ok _ w => w
  | .fatal w => w
  | .panic w => w

/-- Sequencing: the next statement runs only when the one before returned. -/
def Outcome.andThen {α β : Type} (o : Outcome α) (k : α → World → Outcome β) : Outcome β :=
  match o with
  | .ok a w => k a w
  | .fatal w => .fatal w
  | .panic w => .panic w

/-! ## The program -/

/-- The package-level variable `BASE_PATH`. -/
def BASE_PATH : GoString := ascii "https://porkbun.com/api/json/v3"

/-- The constant `http.StatusOK`. -/
def StatusOK : Nat := 200

/-- The state after `init`: `secrets` is what `loadSecrets` read (the zero value on a
failure), `domain` and `currentIP` have their zero value, nothing has been sent. -/
def World.init (secrets : Secrets) (file : Option (List Nat)) : World :=
  { secrets := secrets, domain := [], currentIP := [], file := file, http := [], fileOps := [] }

/-- The function `postRequest(path, body)`. -/
def postRequest (e : Env) (w : World) (path : GoString) (body : Body) :
    Option Response × World :=
  let req : Request := { url := BASE_PATH ++ path, body := body }
  let resp := e.respond w.http req
  (resp, { w with http := w.http ++ [{ request := req, response := resp }] })

/-- The function `getPrevIP()`. -/
def getPrevIP (w : World) : (GoString × Option Error) × World :=
  let w := { w with fileOps := w.fileOps ++ [FileOp.openFile] }
  match w.file with
  | none => (([], some Error.notOpened), w)
  | some data => (((gob.decodeString data).getD [], none), w)

/-- The function `setPrevIP(ip)`. -/
def setPrevIP (e : Env) (w : World) (ip : GoString) : Outcome Unit :=
  let w := { w with fileOps := w.fileOps ++ [FileOp.createFile] }
  if !e.creatable then .fatal w
  else
    let w := { w with file := some [] }
    match gob.encodeString ip with
    | none => .fatal w
    | some data => .ok () { w with file := some data, fileOps := w.fileOps ++ [FileOp.writeFile data] }

/-- The function `updateIP(ip)`. -/
def updateIP (e : Env) (w : World) (ip : GoString) : Outcome Unit :=
  let ((prevIP, _), w) := getPrevIP w
  if prevIP != ip then setPrevIP e w ip else .ok () w

/-- The function `getIP()`. -/
def getIP (e : Env) (w : World) : Outcome (GoString × Option Error) :=
  let (resp, w) := postRequest e w (ascii "/ping") (Body.secrets w.secrets)
  match resp with
  | none => .panic w
  | some resp =>
    if resp.statusCode == StatusOK then
      .ok (resp.yourIp, none) { w with currentIP := resp.yourIp }
    else .ok ([], some (Error.status resp.statusCode)) w

/-- The function `fetchRecords()`. -/
def fetchRecords (e : Env) (w : World) : Outcome (List Record) :=
  let path := ascii "/dns/retrieve/" ++ w.domain
  let (resp, w) := postRequest e w path (Body.secrets w.secrets)
  match resp with
  | none => .panic w
  | some resp =>
    if resp.statusCode == StatusOK then .ok resp.records w
    else .fatal w

/-- The function `createEditRecordReq(record)`. -/
def createEditRecordReq (w : World) (record : Record) : EditRecordReq :=
  { key := w.secrets.key, secret := w.secrets.secret, content := record.content,
    recordType := record.recordType, name := record.name, ttl := record.ttl }

/-- The function `updateRecord(record)`. -/
def updateRecord (e : Env) (w : World) (record : Record) : Outcome Unit :=
  let rec_ := createEditRecordReq w record
  let path := ascii "/dns/edit/" ++ w.domain ++ ascii "/" ++ record.id
  let (resp, w) := postRequest e w path (Body.edit rec_)
  match resp with
  | none => .panic w
  | some resp =>
    -- both branches only log
    if resp.statusCode == StatusOK then .ok () w
    else .ok () w

/-- The loop of `updateRecords`. -/
def updateRecordsLoop (e : Env) : World → List Record → Outcome Unit
  | w, [] => .ok () w
  | w, r :: rest => (updateRecord e w r).andThen fun _ w => updateRecordsLoop e w rest

/-- The function `updateRecords(records)`. -/
def updateRecords (e : Env) (w : World) (records : List Record) : Outcome Unit :=
  (updateRecordsLoop e w records).andThen fun _ w => updateIP e w w.currentIP

/-- The function `main()`; `args` is `os.Args`.  The local `domain` shadows the
package-level variable of that name, which `main` never assigns. -/
def main (e : Env) (w : World) (args : List GoString) : Outcome Unit :=
  if args.length < 2 then .fatal w
  else
    let domain := args.getD 1 []
    if domain == ascii "ping" then
      (getIP e w).andThen fun (_, err) w =>
        if err.isSome then .fatal w else .ok () w
    else
      (getIP e w).andThen fun (ip, _) w =>
        let ((prevIP, _), w) := getPrevIP w
        if ip != prevIP then
          (fetchRecords e w).andThen fun tempRecords w =>
            let records := filterRecords w.domain ip tempRecords
            if records.length > 0 then updateRecords e w records
            else .ok () w
        else .ok () w

/-- The request of `getIP`. -/
def pingRequest (s : Secrets) : Request :=
  { url := BASE_PATH ++ ascii "/ping", body := Body.secrets s }

/-- The request of `fetchRecords` when the package-level `domain` holds `domain`. -/
def retrieveRequest (domain : GoString) (s : Secrets) : Request :=
  { url := BASE_PATH ++ (ascii "/dns/retrieve/" ++ domain), body := Body.secrets s }

/-- The request of `updateRecord` when the package-level `domain` holds `domain`. -/
def editRequest (domain : GoString) (s : Secrets) (record : Record) : Request :=
  { url := BASE_PATH ++ (ascii "/dns/edit/" ++ domain ++ ascii "/" ++ record.id),
    body := Body.edit
      { key := s.key, secret := s.secret, name := record.name,
        recordType := record.recordType, content := record.content, ttl := record.ttl } }

/-- A request to `/dns/retrieve/...`. -/
def Request.isRetrieve (r : Request) : Bool :=
  (BASE_PATH ++ ascii "/dns/retrieve/").isPrefixOf r.url

/-- A request to `/dns/edit/...`. -/
def Request.isEdit (r : Request) : Bool :=
  (BASE_PATH ++ ascii "/dns/edit/").isPrefixOf r.url

/-- The statements of `main` that follow the call of `getIP` in update mode, from the
state `w` in which `getIP` returned `ip`; `main_update` shows that `main` runs them. -/
def updateBranch (e : Env) (ip : GoString) (w : World) : Outcome Unit :=
  if ip != (getPrevIP w).1.1 then
    (fetchRecords e (getPrevIP w).2).andThen fun tempRecords w =>
      if (filterRecords w.domain ip tempRecords).length > 0 then
        updateRecords e w (filterRecords w.domain ip tempRecords)
      else .ok () w
  else .ok () (getPrevIP w).2

/-- A whole run of the program: `init`, then `main`. -/
def run (e : Env) (secrets : Secrets) (file : Option (List Nat)) (args : List GoString) :
    Outcome Unit :=
  main e (World.init secrets file) args

/-! ## Example data -/

/-- Example credentials. -/
def exampleSecrets : Secrets := { key := ascii "pk1", secret := ascii "sk1" }

/-- An "A" record of `example.com` that points to `1.2.3.4`. -/
def exampleRecord : Record :=
  { id := ascii "1", name := ascii "example.com", recordType := ascii "A",
    content := ascii "1.2.3.4", ttl := ascii "600" }

/-- An "A" record of another domain that points to `1.2.3.4`. -/
def otherRecord : Record :=
  { id := ascii "2", name := ascii "www.other.org", recordType := ascii "A",
    content := ascii "1.2.3.4", ttl := ascii "600" }

/-- A server that reports the caller's IP `yourIp` and the records `records`, with status
`pingStatus` on `/ping`, `editStatus` on an edit request and 200 elsewhere; the cache file
can be created. -/
def exampleServer (pingStatus editStatus : Nat) (yourIp : GoString) (records : List Record) :
    Env :=
  { respond := fun _ req =>
      some { statusCode :=
               if req.isEdit then editStatus
               else if req.isRetrieve then 200
               else pingStatus,
             yourIp := yourIp, records := records }
    creatable := true }

/-- The command line `pddc example.com`. -/
def exampleArgs : List GoString := [ascii "pddc", ascii "example.com"]

/-! ## Facts about the string functions -/

theorem strings.Contains_iff (s substr : GoString) :
    strings.Contains s substr = true ↔ substr <:+: s := by
  induction s with
  | nil => cases substr <;> simp [strings.Contains]
  | cons c s ih =>
    simp only [strings.Contains, Bool.or_eq_true, ih, List.infix_cons_iff,
      List.isPrefixOf_iff_prefix]

theorem strings.splitScan_head (d : Nat) (s cur : GoString) :
    (strings.splitScan [d] s 0 cur).headD [] = cur ++ s.takeWhile (fun b => b != d) := by
  induction s generalizing cur with
  | nil => simp [strings.splitScan]
  | cons c s ih =>
    by_cases h : d = c
    · subst h
      simp [strings.splitScan, List.isPrefixOf, List.takeWhile]
    · have h2 : (c != d) = true := by simpa using fun hc => h hc.symm
      have h3 := ih (cur ++ [c])
      simp only [List.headD_eq_head?_getD] at h3
      simp [strings.splitScan, List.isPrefixOf, List.takeWhile, h, h2, h3]

theorem strings.Split_head (s : GoString) :
    (strings.Split s (ascii ".")).headD [] = s.takeWhile (fun b => b != '.'.toNat) := by
  have h := strings.splitScan_head '.'.toNat s []
  simpa [strings.Split, ascii] using h

theorem strings.Split_ne_nil (s sep : GoString) : strings.Split s sep ≠ [] := by
  have h : ∀ (s : GoString) (k : Nat) (cur : GoString), strings.splitScan sep s k cur ≠ [] := by
    intro s
    induction s with
    | nil => intro k cur; simp [strings.splitScan]
    | cons c s ih =>
      intro k cur
      cases k with
      | succ k => simpa [strings.splitScan] using ih k cur
      | zero =>
        simp only [strings.splitScan]
        split
        · simp
        · exact ih 0 _
  exact h s 0 []

/-! ## The record filter -/

theorem filterRecordsBody_eq (domain ip : GoString) (fr : List Record) (v : Record) :
    filterRecordsBody domain ip fr v =
      fr ++ (if Selected domain ip v then [rewritten domain ip v] else []) := by
  unfold filterRecordsBody
  by_cases h : Selected domain ip v
  · obtain ⟨h1, h2, h3⟩ := h
    have hc := (strings.Contains_iff v.name domain).2 h1
    simp only [hc, h2, bne_iff_ne, ne_eq, h3, not_false_eq_true, decide_True, Bool.and_self,
      beq_self_eq_true, if_true, Selected, h1, and_self, rewritten, strings.Split_head]
    by_cases hn : v.name = domain <;> simp [hn, h3]
  · have hc : (strings.Contains v.name domain && v.recordType == ascii "A" && v.content != ip)
        = false := by
      rw [Bool.eq_false_iff]
      intro hh
      simp only [Bool.and_eq_true, beq_iff_eq, bne_iff_ne, ne_eq, strings.Contains_iff] at hh
      exact h ⟨hh.1.1, hh.1.2, hh.2⟩
    simp [hc, h]

theorem filterRecords_foldl (domain ip : GoString) (records acc : List Record) :
    records.foldl (filterRecordsBody domain ip) acc =
      acc ++ (records.filter (fun r => decide (Selected domain ip r))).map (rewritten domain ip) := by
  induction records generalizing acc with
  | nil => simp
  | cons r rs ih =>
    rw [List.foldl_cons, ih, filterRecordsBody_eq]
    by_cases h : Selected domain ip r <;> simp [h, List.filter_cons]

theorem filterRecords_eq (domain ip : GoString) (records : List Record) :
    filterRecords domain ip records =
      (records.filter (fun r => decide (Selected domain ip r))).map (rewritten domain ip) := by
  simpa [filterRecords] using filterRecords_foldl domain ip records []

/-- C1: a record of the input is selected exactly when its name contains the domain, its
type is "A" and its content differs from `ip`: this holds record by record (a one-record
input gives an output exactly then, and the filter distributes over concatenation), the
output has as many records as the input has records meeting the three conditions, an input
without an "A" record gives an empty output, and so does an input whose records all have
content `ip`. -/
theorem filterRecords_selects (domain ip : GoString) (records : List Record) :
    (∀ r : Record, filterRecords domain ip [r] ≠ [] ↔
      (domain <:+: r.name ∧ r.recordType = ascii "A" ∧ r.content ≠ ip)) ∧
    (∀ xs ys : List Record, filterRecords domain ip (xs ++ ys) =
      filterRecords domain ip xs ++ filterRecords domain ip ys) ∧
    (filterRecords domain ip records).length =
      records.countP (fun r => decide
        (domain <:+: r.name ∧ r.recordType = ascii "A" ∧ r.content ≠ ip)) ∧
    ((∀ r ∈ records, r.recordType ≠ ascii "A") → filterRecords domain ip records = []) ∧
    ((∀ r ∈ records, r.content = ip) → filterRecords domain ip records = []) := by
  refine ⟨?_, ?_, ?_, ?_, ?_⟩
  · intro r
    by_cases h : Selected domain ip r
    · have h2 : filterRecords domain ip [r] ≠ [] := by simp [filterRecords_eq, h]
      exact ⟨fun _ => h, fun _ => h2⟩
    · have h2 : filterRecords domain ip [r] = [] := by simp [filterRecords_eq, h]
      exact ⟨fun hne => absurd h2 hne, fun hs => absurd hs h⟩
  · intro xs ys
    simp [filterRecords_eq]
  · rw [filterRecords_eq, List.length_map, List.countP_eq_length_filter]
    rfl
  · intro h
    rw [filterRecords_eq, List.map_eq_nil_iff, List.filter_eq_nil_iff]
    intro r hr
    simp [Selected, h r hr]
  · intro h
    rw [filterRecords_eq, List.map_eq_nil_iff, List.filter_eq_nil_iff]
    intro r hr
    simp [Selected, h r hr]

/-- C2: the output of `filterRecords` is, in input order, the selected records, each with
content `ip`, with the empty name when its name was the domain and else with the part of
its name before the first ".", and with `id`, `recordType` and `ttl` as they were; a
selected record named "www." followed by the domain comes out named "www". -/
theorem filterRecords_rewrites (domain ip : GoString) (records : List Record) :
    filterRecords domain ip records =
      (records.filter (fun r => decide
          (domain <:+: r.name ∧ r.recordType = ascii "A" ∧ r.content ≠ ip))).map
        (fun r => { id := r.id,
                    name := if r.name = domain then []
                            else r.name.takeWhile (fun b => b != '.'.toNat),
                    recordType := r.recordType,
                    content := ip,
                    ttl := r.ttl }) ∧
    (∀ id content ttl : GoString, content ≠ ip →
      filterRecords domain ip
          [{ id := id, name := ascii "www." ++ domain, recordType := ascii "A",
             content := content, ttl := ttl }] =
        [{ id := id, name := ascii "www", recordType := ascii "A", content := ip,
           ttl := ttl }]) := by
  refine ⟨filterRecords_eq domain ip records, ?_⟩
  intro id content ttl hc
  have hsel : Selected domain ip
      { id := id, name := ascii "www." ++ domain, recordType := ascii "A",
        content := content, ttl := ttl } :=
    ⟨⟨ascii "www.", [], by simp⟩, rfl, hc⟩
  have hne : ascii "www." ++ domain ≠ domain := by
    intro h
    have hl := congrArg List.length h
    simp [ascii] at hl
    omega
  have hw : ascii "www." = [119, 119, 119, 46] := by decide
  have hw2 : ascii "www" = [119, 119, 119] := by decide
  have hdot : '.'.toNat = 46 := by decide
  rw [filterRecords_eq]
  simp only [List.filter_cons, hsel, decide_True, if_true, List.filter_nil, List.map_cons,
    List.map_nil, rewritten, hne, if_false]
  simp [hw, hw2, hdot, List.takeWhile]

/-- C1 on the records of `example.com`: of an "A" record of the domain and one of another
domain one is selected, an "MX" record is not, a record that already points to the IP is
not. -/
theorem filterRecords_selects_witness :
    (filterRecords (ascii "example.com") (ascii "5.6.7.8") [exampleRecord, otherRecord]).length
      = 1 ∧
    filterRecords (ascii "example.com") (ascii "5.6.7.8")
      [{ exampleRecord with recordType := ascii "MX" }] = [] ∧
    filterRecords (ascii "example.com") (ascii "5.6.7.8")
      [{ exampleRecord with content := ascii "5.6.7.8" }] = [] :=
  ⟨(filterRecords_selects (ascii "example.com") (ascii "5.6.7.8")
      [exampleRecord, otherRecord]).2.2.1.trans (by decide),
   (filterRecords_selects (ascii "example.com") (ascii "5.6.7.8")
      [{ exampleRecord with recordType := ascii "MX" }]).2.2.2.1 (by decide),
   (filterRecords_selects (ascii "example.com") (ascii "5.6.7.8")
      [{ exampleRecord with content := ascii "5.6.7.8" }]).2.2.2.2 (by decide)⟩

/-- C2 on the record `www.example.com`, which points to `1.2.3.4`. -/
theorem filterRecords_rewrites_witness :
    filterRecords (ascii "example.com") (ascii "5.6.7.8")
        [{ id := ascii "7", name := ascii "www." ++ ascii "example.com",
           recordType := ascii "A", content := ascii "1.2.3.4", ttl := ascii "600" }] =
      [{ id := ascii "7", name := ascii "www", recordType := ascii "A",
         content := ascii "5.6.7.8", ttl := ascii "600" }] :=
  (filterRecords_rewrites (ascii "example.com") (ascii "5.6.7.8") []).2
    (ascii "7") (ascii "1.2.3.4") (ascii "600") (by decide)

/-! ## The gob encoding is read back -/

theorem gob.shift_or_byte (x y : Nat) : x <<< 8 ||| y % 256 = 256 * x + y % 256 := by
  have h : y % 256 < 2 ^ 8 := Nat.mod_lt _ (by decide)
  rw [Nat.shiftLeft_eq, Nat.mul_comm]
  exact (Nat.mul_add_lt_is_or h x).symm

theorem gob.foldl_putUint64 (x : Nat) (hx : x < 2 ^ 64) :
    (gob.putUint64 x).foldl (fun x c => (x <<< 8 ||| c) % 2 ^ 64) 0 = x := by
  simp only [gob.putUint64, List.foldl, gob.shift_or_byte]
  norm_num at hx ⊢
  omega

theorem gob.foldl_dropWhile_zero (l : List Nat) :
    (l.dropWhile (fun b => b == 0)).foldl (fun x c => (x <<< 8 ||| c) % 2 ^ 64) 0 =
      l.foldl (fun x c => (x <<< 8 ||| c) % 2 ^ 64) 0 := by
  induction l with
  | nil => rfl
  | cons c l ih =>
    by_cases h : c = 0
    · subst h
      simpa [List.dropWhile] using ih
    · have hc : (c == 0) = false := by simpa using h
      rw [List.dropWhile_cons, hc]
      rfl

theorem gob.drop_length_takeWhile (p : Nat → Bool) (l : List Nat) :
    l.drop (l.takeWhile p).length = l.dropWhile p := by
  induction l with
  | nil => rfl
  | cons c l ih =>
    cases h : p c <;> simp [List.takeWhile, List.dropWhile, h, ih]

theorem gob.leading_zero_bytes_lt (x : Nat) (hx : x < 2 ^ 64) (h0 : 0 < x) :
    ((gob.putUint64 x).takeWhile (fun b => b == 0)).length < 8 := by
  by_contra hge
  have hle : ((gob.putUint64 x).takeWhile (fun b => b == 0)).length ≤ (gob.putUint64 x).length :=
    (List.takeWhile_sublist _).length_le
  have hlen : (gob.putUint64 x).length = 8 := rfl
  have heq : (gob.putUint64 x).takeWhile (fun b => b == 0) = gob.putUint64 x :=
    (List.takeWhile_sublist _).eq_of_length (by omega)
  rw [List.takeWhile_eq_self_iff] at heq
  simp only [gob.putUint64, List.mem_cons, List.mem_singleton, beq_iff_eq, forall_eq_or_imp,
    forall_eq, List.not_mem_nil, false_implies, implies_true, and_true] at heq
  norm_num at hx heq
  omega

theorem gob.decodeUint_encodeUint (x : Nat) (hx : x < 2 ^ 64) (rest : List Nat) :
    gob.decodeUint (gob.encodeUint x ++ rest) = some (x, rest) := by
  unfold gob.encodeUint
  by_cases hs : x ≤ 0x7F
  · simp [hs, gob.decodeUint]
  · have hbc := gob.leading_zero_bytes_lt x hx (by omega)
    have hlen : (gob.putUint64 x).length = 8 := rfl
    simp only [hs, if_false, List.cons_append, gob.decodeUint, gob.uint64Size]
    generalize hb : ((gob.putUint64 x).takeWhile (fun b => b == 0)).length = bc at hbc ⊢
    have hdl : ((gob.putUint64 x).drop bc).length = 8 - bc := by simp [hlen]
    have h1 : (256 + bc - 8) % 256 = 248 + bc := by omega
    have h2 : ¬ (248 + bc ≤ 127) := by omega
    have h3 : 256 - (248 + bc) = 8 - bc := by omega
    have h4 : ¬ (8 - bc > 8) := by omega
    have h5 : ¬ (((gob.putUint64 x).drop bc ++ rest).length < 8 - bc) := by
      rw [List.length_append, hdl]; omega
    rw [h1, if_neg h2, h3, if_neg h4, if_neg h5, List.take_left' hdl, List.drop_left' hdl]
    rw [← hb, gob.drop_length_takeWhile, gob.foldl_dropWhile_zero, gob.foldl_putUint64 x hx]

theorem gob.decodeString_encodeString (s : GoString) (data : List Nat)
    (h : gob.encodeString s = some data) : gob.decodeString data = some s := by
  have h12 : gob.encodeInt gob.tString = [12] := by decide
  have h0 : gob.encodeUint 0 = [0] := by decide
  unfold gob.encodeString at h
  simp only [h12, h0] at h
  split at h
  · exact absurd h (by simp)
  · rename_i hbig
    simp only [gob.tooBig, ge_iff_le, not_le] at hbig
    have hm : ([12] ++ [0] ++ gob.encodeUint s.length ++ s).length < 2 ^ 64 := by
      have : (2 : Nat) ^ 33 < 2 ^ 64 := by norm_num
      omega
    have hsl : s.length < 2 ^ 33 := by
      simp only [List.length_append] at hbig
      omega
    have hsl2 : s.length < 2 ^ 64 := by
      have : (2 : Nat) ^ 33 < 2 ^ 64 := by norm_num
      omega
    injection h with h
    subst h
    unfold gob.decodeString
    rw [gob.decodeUint_encodeUint _ hm]
    simp only [gob.tooBig, ge_iff_le, Nat.not_le.2 hbig, if_false, lt_irrefl, List.take_length]
    have d1 : gob.decodeUint ([12] ++ [0] ++ gob.encodeUint s.length ++ s) =
        some (12, [0] ++ gob.encodeUint s.length ++ s) := by
      simp [gob.decodeUint]
    have d2 : gob.decodeUint ([0] ++ gob.encodeUint s.length ++ s) =
        some (0, gob.encodeUint s.length ++ s) := by
      simp [gob.decodeUint]
    have ht : gob.toInt 12 = gob.tString := by decide
    rw [d1]
    simp only [ht, ne_eq, not_true_eq_false, if_false, d2,
      gob.decodeUint_encodeUint _ hsl2, lt_irrefl, false_or, Nat.not_le.2 hsl, List.take_length]

/-! ## The previous-IP store -/

/-- C7: when `setPrevIP(ip)` succeeds, a following `getPrevIP()` returns `ip` and no
error. -/
theorem setPrevIP_getPrevIP (e : Env) (w w' : World) (ip : GoString)
    (h : setPrevIP e w ip = Outcome.ok () w') :
    (getPrevIP w').1 = (ip, none) := by
  unfold setPrevIP at h
  split at h
  · exact absurd h (by simp)
  · split at h
    · exact absurd h (by simp)
    · rename_i data henc
      injection h with _ hw
      subst hw
      simp [getPrevIP, gob.decodeString_encodeString ip data henc]

/-- C7 at `9.9.9.9`, starting without a cache file. -/
theorem setPrevIP_getPrevIP_witness :
    (getPrevIP (setPrevIP ⟨fun _ _ => none, true⟩ (World.init ⟨[], []⟩ none)
      (ascii "9.9.9.9")).world).1 = (ascii "9.9.9.9", none) :=
  setPrevIP_getPrevIP ⟨fun _ _ => none, true⟩ (World.init ⟨[], []⟩ none) _ (ascii "9.9.9.9")
    (by rfl)

/-! ## A run of `main` -/

theorem main_ping (e : Env) (w : World) (prog : GoString) (rest : List GoString) :
    main e w (prog :: ascii "ping" :: rest) =
      (getIP e w).andThen fun (_, err) w => if err.isSome then .fatal w else .ok () w := by
  have h : ¬ (rest.length + 1 + 1 < 2) := by omega
  simp [main, h]

theorem main_update (e : Env) (w : World) (prog d : GoString) (rest : List GoString)
    (hd : d ≠ ascii "ping") :
    main e w (prog :: d :: rest) =
      (getIP e w).andThen fun (ip, _) w => updateBranch e ip w := by
  have h : ¬ (rest.length + 1 + 1 < 2) := by omega
  simp [main, h, hd, updateBranch]

theorem getPrevIP_fst_congr (w w' : World) (h : w.file = w'.file) :
    (getPrevIP w).1 = (getPrevIP w').1 := by
  unfold getPrevIP
  simp only [h]
  cases w'.file <;> rfl

theorem getPrevIP_fst_init (w : World) :
    (getPrevIP w).1 = (getPrevIP (World.init w.secrets w.file)).1 :=
  getPrevIP_fst_congr w _ rfl

theorem getPrevIP_snd (w : World) :
    (getPrevIP w).2 = { w with fileOps := w.fileOps ++ [FileOp.openFile] } := by
  unfold getPrevIP
  cases h : w.file <;> simp [h]

theorem getIP_init_ok (e : Env) (s : Secrets) (file : Option (List Nat)) (r : Response)
    (hping : e.respond [] (pingRequest s) = some r) (h200 : r.statusCode = 200) :
    getIP e (World.init s file) =
      .ok (r.yourIp, none)
        { secrets := s, domain := [], currentIP := r.yourIp, file := file,
          http := [{ request := pingRequest s, response := some r }], fileOps := [] } := by
  unfold pingRequest at hping
  simp [getIP, postRequest, World.init, hping, h200, StatusOK, pingRequest]

theorem getIP_init_fail (e : Env) (s : Secrets) (file : Option (List Nat)) (r : Response)
    (hping : e.respond [] (pingRequest s) = some r) (h200 : r.statusCode ≠ 200) :
    getIP e (World.init s file) =
      .ok ([], some (Error.status r.statusCode))
        { secrets := s, domain := [], currentIP := [], file := file,
          http := [{ request := pingRequest s, response := some r }], fileOps := [] } := by
  unfold pingRequest at hping
  simp [getIP, postRequest, World.init, hping, h200, StatusOK, pingRequest]

theorem isPrefixOf_append_left (a b c : GoString) :
    (a ++ b).isPrefixOf (a ++ c) = b.isPrefixOf c := by
  induction a with
  | nil => rfl
  | cons x a ih => simp [List.isPrefixOf, ih]

theorem isPrefixOf_append_self (a b : GoString) : a.isPrefixOf (a ++ b) = true := by
  induction a with
  | nil => simp
  | cons x a ih => simp [List.isPrefixOf, ih]

theorem ascii_edit : ascii "/dns/edit/" = [47, 100, 110, 115, 47, 101, 100, 105, 116, 47] := by
  decide

theorem ascii_retrieve :
    ascii "/dns/retrieve/" =
      [47, 100, 110, 115, 47, 114, 101, 116, 114, 105, 101, 118, 101, 47] := by
  decide

theorem isEdit_pingRequest (s : Secrets) : (pingRequest s).isEdit = false := by
  unfold Request.isEdit pingRequest
  rw [isPrefixOf_append_left]
  decide

theorem isEdit_retrieveRequest (d : GoString) (s : Secrets) :
    (retrieveRequest d s).isEdit = false := by
  unfold Request.isEdit retrieveRequest
  rw [isPrefixOf_append_left, ascii_edit, ascii_retrieve]
  simp [List.isPrefixOf]

theorem isRetrieve_pingRequest (s : Secrets) : (pingRequest s).isRetrieve = false := by
  unfold Request.isRetrieve pingRequest
  rw [isPrefixOf_append_left]
  decide

theorem isRetrieve_retrieveRequest (d : GoString) (s : Secrets) :
    (retrieveRequest d s).isRetrieve = true := by
  unfold Request.isRetrieve retrieveRequest
  rw [isPrefixOf_append_left]
  exact isPrefixOf_append_self _ _

theorem isRetrieve_editRequest (d : GoString) (s : Secrets) (r : Record) :
    (editRequest d s r).isRetrieve = false := by
  unfold Request.isRetrieve editRequest
  rw [isPrefixOf_append_left, List.append_assoc, List.append_assoc, ascii_edit, ascii_retrieve]
  simp [List.isPrefixOf]

theorem updateRecord_eq (e : Env) (w : World) (r : Record) :
    updateRecord e w r =
      match e.respond w.http (editRequest w.domain w.secrets r) with
      | none => .panic { w with http := w.http ++
          [{ request := editRequest w.domain w.secrets r, response := none }] }
      | some resp => .ok () { w with http := w.http ++
          [{ request := editRequest w.domain w.secrets r, response := some resp }] } := by
  simp only [updateRecord, postRequest, createEditRecordReq, editRequest, ite_self]
  cases e.respond w.http _ <;> rfl

theorem updateRecordsLoop_spec (e : Env) (recs : List Record) :
    ∀ w : World, ∃ l : List Exchange,
      (updateRecordsLoop e w recs).world = { w with http := w.http ++ l } ∧
      (∀ u, updateRecordsLoop e w recs ≠ .fatal u) ∧
      (∀ x ∈ l, x.request.isRetrieve = false) ∧
      ((∃ u, updateRecordsLoop e w recs = .ok () u) → ∀ x ∈ l, x.response.isSome = true) := by
  induction recs with
  | nil =>
    intro w
    exact ⟨[], by simp [updateRecordsLoop, Outcome.world], by simp [updateRecordsLoop],
      by simp, by simp⟩
  | cons r rest ih =>
    intro w
    rw [updateRecordsLoop, updateRecord_eq]
    cases hresp : e.respond w.http (editRequest w.domain w.secrets r) with
    | none =>
      refine ⟨[{ request := editRequest w.domain w.secrets r, response := none }], ?_, ?_, ?_, ?_⟩
      · simp [Outcome.andThen, Outcome.world]
      · simp [Outcome.andThen]
      · simp [isRetrieve_editRequest]
      · simp [Outcome.andThen]
    | some resp =>
      obtain ⟨l, h1, h2, h3, h4⟩ := ih { w with http := w.http ++
        [{ request := editRequest w.domain w.secrets r, response := some resp }] }
      refine ⟨{ request := editRequest w.domain w.secrets r, response := some resp } :: l,
        ?_, ?_, ?_, ?_⟩
      · simpa [Outcome.andThen] using h1
      · simpa [Outcome.andThen] using h2
      · intro x hx
        rcases List.mem_cons.1 hx with rfl | hx
        · exact isRetrieve_editRequest _ _ _
        · exact h3 x hx
      · intro hok x hx
        rcases List.mem_cons.1 hx with rfl | hx
        · rfl
        · exact h4 (by simpa [Outcome.andThen] using hok) x hx

theorem updateIP_spec (e : Env) (w : World) (ip : GoString) :
    ∃ ops : List FileOp,
      (updateIP e w ip).world.fileOps = w.fileOps ++ FileOp.openFile :: ops ∧
      (updateIP e w ip).world.http = w.http ∧
      ∀ data, FileOp.writeFile data ∈ ops →
        gob.encodeString ip = some data ∧ (updateIP e w ip).world.file = some data ∧
        ∃ u, updateIP e w ip = .ok () u := by
  unfold updateIP
  simp only [getPrevIP_snd]
  by_cases hne : ((getPrevIP w).1.1 != ip) = true
  · simp only [hne, if_true, setPrevIP]
    by_cases hc : e.creatable = true
    · simp only [hc, Bool.not_true, Bool.false_eq_true, if_false]
      cases henc : gob.encodeString ip with
      | none =>
        exact ⟨[FileOp.createFile], by simp [Outcome.world], by simp [Outcome.world],
          by simp⟩
      | some data =>
        refine ⟨[FileOp.createFile, FileOp.writeFile data], by simp [Outcome.world],
          by simp [Outcome.world], ?_⟩
        intro data' hd
        simp only [List.mem_cons, reduceCtorEq, FileOp.writeFile.injEq, List.mem_singleton,
          List.not_mem_nil, or_false, false_or] at hd
        subst hd
        exact ⟨rfl, by simp [Outcome.world], ⟨_, rfl⟩⟩
    · simp only [hc, Bool.not_false, if_true]
      exact ⟨[FileOp.createFile], by simp [Outcome.world], by simp [Outcome.world],
        by simp⟩
  · simp only [hne, if_false]
    exact ⟨[], by simp [Outcome.world], by simp [Outcome.world], by simp⟩

theorem fetchRecords_eq (e : Env) (w : World) :
    fetchRecords e w =
      match e.respond w.http (retrieveRequest w.domain w.secrets) with
      | none => .panic { w with http := w.http ++
          [{ request := retrieveRequest w.domain w.secrets, response := none }] }
      | some resp =>
        if resp.statusCode = 200 then
          .ok resp.records { w with http := w.http ++
            [{ request := retrieveRequest w.domain w.secrets, response := some resp }] }
        else
          .fatal { w with http := w.http ++
            [{ request := retrieveRequest w.domain w.secrets, response := some resp }] } := by
  simp only [fetchRecords, postRequest, retrieveRequest, StatusOK, beq_iff_eq]
  cases e.respond w.http _ <;> rfl

theorem updateRecords_spec (e : Env) (w : World) (recs : List Record) :
    ∃ (l : List Exchange) (ops : List FileOp),
      (updateRecords e w recs).world.http = w.http ++ l ∧
      (updateRecords e w recs).world.fileOps = w.fileOps ++ ops ∧
      (∀ x ∈ l, x.request.isRetrieve = false) ∧
      ∀ data, FileOp.writeFile data ∈ ops →
        gob.encodeString w.currentIP = some data ∧
        (updateRecords e w recs).world.file = some data ∧
        (∀ x ∈ l, x.response.isSome = true) ∧
        ∃ u, updateRecords e w recs = .ok () u := by
  obtain ⟨l, h1, h2, h3, h4⟩ := updateRecordsLoop_spec e recs w
  unfold updateRecords
  cases hloop : updateRecordsLoop e w recs with
  | fatal u => exact absurd hloop (h2 u)
  | panic u =>
    rw [hloop] at h1
    simp only [Outcome.world] at h1
    subst h1
    exact ⟨l, [], by simp [Outcome.andThen, Outcome.world],
      by simp [Outcome.andThen, Outcome.world], h3, by simp⟩
  | ok a u =>
    rw [hloop] at h1
    simp only [Outcome.world] at h1
    subst h1
    obtain ⟨ops, g1, g2, g3⟩ := updateIP_spec e { w with http := w.http ++ l } w.currentIP
    refine ⟨l, FileOp.openFile :: ops, ?_, ?_, h3, ?_⟩
    · simpa [Outcome.andThen] using g2
    · simpa [Outcome.andThen] using g1
    · intro data hd
      have hd2 : FileOp.writeFile data ∈ ops := by simpa using hd
      obtain ⟨k1, k2, k3⟩ := g3 data hd2
      exact ⟨k1, by simpa [Outcome.andThen] using k2, h4 ⟨_, hloop⟩,
        by simpa [Outcome.andThen] using k3⟩

theorem updateBranch_spec (e : Env) (ip : GoString) (w : World) (hcur : w.currentIP = ip) :
    ∃ (l : List Exchange) (ops : List FileOp),
      (updateBranch e ip w).world.http = w.http ++ l ∧
      (updateBranch e ip w).world.fileOps = w.fileOps ++ FileOp.openFile :: ops ∧
      ((∃ x ∈ l, x.request.isRetrieve = true) ↔ ip ≠ (getPrevIP w).1.1) ∧
      ∀ data, FileOp.writeFile data ∈ ops →
        gob.encodeString ip = some data ∧
        (updateBranch e ip w).world.file = some data ∧
        (∀ x ∈ l, x.response.isSome = true) ∧
        ∃ u, updateBranch e ip w = .ok () u := by
  unfold updateBranch
  by_cases hne : ip = (getPrevIP w).1.1
  · have hb : (ip != (getPrevIP w).1.1) = false := by simpa using hne
    simp only [hb, Bool.false_eq_true, if_false, getPrevIP_snd]
    exact ⟨[], [], by simp [Outcome.world], by simp [Outcome.world], by simp [hne], by simp⟩
  · have hb : (ip != (getPrevIP w).1.1) = true := by simpa using hne
    simp only [hb, if_true, getPrevIP_snd, fetchRecords_eq]
    cases hresp : e.respond w.http (retrieveRequest w.domain w.secrets) with
    | none =>
      refine ⟨[{ request := retrieveRequest w.domain w.secrets, response := none }], [],
        by simp [Outcome.andThen, Outcome.world], by simp [Outcome.andThen, Outcome.world],
        ?_, by simp⟩
      simp [hne, isRetrieve_retrieveRequest]
    | some resp =>
      by_cases h200 : resp.statusCode = 200
      · simp only [h200, if_true, Outcome.andThen]
        by_cases hlen : (filterRecords w.domain ip resp.records).length > 0
        · simp only [hlen, if_true]
          obtain ⟨l, ops, g1, g2, g3, g4⟩ := updateRecords_spec e
            { w with
              fileOps := w.fileOps ++ [FileOp.openFile]
              http := w.http ++
                [{ request := retrieveRequest w.domain w.secrets, response := some resp }] }
            (filterRecords w.domain ip resp.records)
          refine ⟨{ request := retrieveRequest w.domain w.secrets, response := some resp } :: l,
            ops, ?_, ?_, ?_, ?_⟩
          · simpa using g1
          · simpa using g2
          · simp [hne, isRetrieve_retrieveRequest]
          · intro data hd
            obtain ⟨k1, k2, k3, k4⟩ := g4 data hd
            refine ⟨by simpa [hcur] using k1, k2, ?_, k4⟩
            intro x hx
            rcases List.mem_cons.1 hx with rfl | hx
            · rfl
            · exact k3 x hx
        · simp only [hlen, if_false]
          refine ⟨[{ request := retrieveRequest w.domain w.secrets, response := some resp }],
            [], by simp [Outcome.world], by simp [Outcome.world], ?_, by simp⟩
          simp [hne, isRetrieve_retrieveRequest]
      · simp only [h200, if_false, Outcome.andThen]
        refine ⟨[{ request := retrieveRequest w.domain w.secrets, response := some resp }],
          [], by simp [Outcome.world], by simp [Outcome.world], ?_, by simp⟩
        simp [hne, isRetrieve_retrieveRequest]

theorem getIP_init_none (e : Env) (s : Secrets) (file : Option (List Nat))
    (hping : e.respond [] (pingRequest s) = none) :
    getIP e (World.init s file) =
      .panic
        { secrets := s, domain := [], currentIP := [], file := file,
          http := [{ request := pingRequest s, response := none }], fileOps := [] } := by
  unfold pingRequest at hping
  simp [getIP, postRequest, World.init, hping, pingRequest]

/-- C6: a run in ping mode leaves the cache file as it was and makes no access to it,
whatever the ping call gives. -/
theorem ping_mode_leaves_cache (e : Env) (s : Secrets) (file : Option (List Nat))
    (prog : GoString) (rest : List GoString) :
    (run e s file (prog :: ascii "ping" :: rest)).world.file = file ∧
    (run e s file (prog :: ascii "ping" :: rest)).world.fileOps = [] := by
  rw [run, main_ping]
  simp only [getIP, postRequest, World.init]
  cases e.respond [] _ with
  | none => simp [Outcome.andThen, Outcome.world]
  | some r =>
    by_cases h : r.statusCode = StatusOK <;> simp [Outcome.andThen, Outcome.world, h]

/-- C4: in update mode, when the ping call returns `ip` and the previous-IP store gives the
same `ip`, the run sends the ping request and nothing else (no retrieve request, no edit
request), leaves the cache file as it was and only opens it for reading. -/
theorem unchanged_ip_skips_update (e : Env) (s : Secrets) (file : Option (List Nat))
    (prog d : GoString) (rest : List GoString) (ip : GoString) (r : Response)
    (hd : d ≠ ascii "ping")
    (hping : e.respond [] (pingRequest s) = some r) (h200 : r.statusCode = 200)
    (hip : r.yourIp = ip)
    (hprev : (getPrevIP (World.init s file)).1.1 = ip) :
    (run e s file (prog :: d :: rest)).world.http =
      [{ request := pingRequest s, response := some r }] ∧
    (run e s file (prog :: d :: rest)).world.file = file ∧
    (run e s file (prog :: d :: rest)).world.fileOps = [FileOp.openFile] := by
  rw [run, main_update e _ prog d rest hd, getIP_init_ok e s file r hping h200]
  have hp : ∀ w : World, w.file = file → (getPrevIP w).1.1 = ip := fun w hw => by
    rw [getPrevIP_fst_congr w (World.init s file) hw]
    exact hprev
  simp only [Outcome.andThen, updateBranch, hp, hip, bne_self_eq_false, Bool.false_eq_true, if_false,
    Outcome.world, getPrevIP_snd, List.nil_append, and_self]

/-- C4 at previous IP `1.2.3.4` and current IP `1.2.3.4`. -/
theorem unchanged_ip_skips_update_witness :
    (run ⟨fun _ _ => some ⟨200, ascii "1.2.3.4", []⟩, true⟩ ⟨ascii "k", ascii "s"⟩
        (gob.encodeString (ascii "1.2.3.4")) [ascii "pddc", ascii "example.com"]).world.http =
      [{ request := pingRequest ⟨ascii "k", ascii "s"⟩,
         response := some ⟨200, ascii "1.2.3.4", []⟩ }] ∧
    (run ⟨fun _ _ => some ⟨200, ascii "1.2.3.4", []⟩, true⟩ ⟨ascii "k", ascii "s"⟩
        (gob.encodeString (ascii "1.2.3.4")) [ascii "pddc", ascii "example.com"]).world.file =
      gob.encodeString (ascii "1.2.3.4") ∧
    (run ⟨fun _ _ => some ⟨200, ascii "1.2.3.4", []⟩, true⟩ ⟨ascii "k", ascii "s"⟩
        (gob.encodeString (ascii "1.2.3.4")) [ascii "pddc", ascii "example.com"]).world.fileOps =
      [FileOp.openFile] :=
  unchanged_ip_skips_update ⟨fun _ _ => some ⟨200, ascii "1.2.3.4", []⟩, true⟩
    ⟨ascii "k", ascii "s"⟩ (gob.encodeString (ascii "1.2.3.4")) (ascii "pddc")
    (ascii "example.com") [] (ascii "1.2.3.4") ⟨200, ascii "1.2.3.4", []⟩
    (by decide) rfl rfl rfl (by decide)

/-- C10: in update mode, when the resolved IP `ip` differs from what the store gives and
`filterRecords`, as the run applies it (the package-level `domain` it reads is empty),
returns an empty list, the run sends the ping and the retrieve request and no edit request,
leaves the cache file as it was, only opens it for reading, and the store still gives a
previous IP other than `ip` afterwards. -/
theorem nothing_selected_no_write (e : Env) (s : Secrets) (file : Option (List Nat))
    (prog d : GoString) (rest : List GoString) (ip : GoString) (r1 r2 : Response)
    (hd : d ≠ ascii "ping")
    (hping : e.respond [] (pingRequest s) = some r1)
    (h200 : r1.statusCode = 200) (hip : r1.yourIp = ip)
    (hne : ip ≠ (getPrevIP (World.init s file)).1.1)
    (hfetch : e.respond [{ request := pingRequest s, response := some r1 }]
      (retrieveRequest [] s) = some r2)
    (hf200 : r2.statusCode = 200)
    (hnone : filterRecords [] ip r2.records = []) :
    (run e s file (prog :: d :: rest)).world.http =
      [{ request := pingRequest s, response := some r1 },
       { request := retrieveRequest [] s, response := some r2 }] ∧
    (∀ x ∈ (run e s file (prog :: d :: rest)).world.http, x.request.isEdit = false) ∧
    (run e s file (prog :: d :: rest)).world.file = file ∧
    (run e s file (prog :: d :: rest)).world.fileOps = [FileOp.openFile] ∧
    (getPrevIP (run e s file (prog :: d :: rest)).world).1.1 ≠ ip := by
  have hp : ∀ w : World, w.file = file →
      (getPrevIP w).1.1 = (getPrevIP (World.init s file)).1.1 := fun w hw => by
    rw [getPrevIP_fst_congr w (World.init s file) hw]
  have hcp : (ip != (getPrevIP (World.init s file)).1.1) = true := by simpa using hne
  have hrun : run e s file (prog :: d :: rest) = .ok ()
      { secrets := s, domain := [], currentIP := ip, file := file,
        http := [{ request := pingRequest s, response := some r1 },
          { request := retrieveRequest [] s, response := some r2 }],
        fileOps := [FileOp.openFile] } := by
    unfold retrieveRequest at hfetch
    simp only [List.append_nil] at hfetch
    rw [run, main_update e _ prog d rest hd, getIP_init_ok e s file r1 hping h200]
    simp only [Outcome.andThen, updateBranch, hp, hip, hcp, if_true, getPrevIP_snd, List.nil_append,
      fetchRecords, postRequest, hfetch, hf200, StatusOK, beq_self_eq_true, hnone,
      List.length_nil, gt_iff_lt, Nat.lt_irrefl, if_false, List.append_nil,
      List.singleton_append, retrieveRequest]
  rw [hrun]
  refine ⟨rfl, ?_, rfl, rfl, ?_⟩
  · intro x hx
    simp only [Outcome.world, List.mem_cons, List.mem_singleton, List.not_mem_nil,
      or_false] at hx
    rcases hx with rfl | rfl
    · exact isEdit_pingRequest s
    · exact isEdit_retrieveRequest [] s
  · simp only [Outcome.world]
    rw [hp _ rfl]
    exact fun h => hne h.symm

/-- C10 at previous IP `1.2.3.4` and current IP `5.6.7.8`, when the only record is an "MX"
record. -/
theorem nothing_selected_no_write_witness :
    (run (exampleServer 200 200 (ascii "5.6.7.8")
          [{ exampleRecord with recordType := ascii "MX" }]) exampleSecrets
        (gob.encodeString (ascii "1.2.3.4")) exampleArgs).world.file =
      gob.encodeString (ascii "1.2.3.4") ∧
    (getPrevIP (run (exampleServer 200 200 (ascii "5.6.7.8")
          [{ exampleRecord with recordType := ascii "MX" }]) exampleSecrets
        (gob.encodeString (ascii "1.2.3.4")) exampleArgs).world).1.1 ≠ ascii "5.6.7.8" := by
  have h := nothing_selected_no_write (exampleServer 200 200 (ascii "5.6.7.8")
      [{ exampleRecord with recordType := ascii "MX" }])
    exampleSecrets (gob.encodeString (ascii "1.2.3.4")) (ascii "pddc") (ascii "example.com") []
    (ascii "5.6.7.8")
    ⟨200, ascii "5.6.7.8", [{ exampleRecord with recordType := ascii "MX" }]⟩
    ⟨200, ascii "5.6.7.8", [{ exampleRecord with recordType := ascii "MX" }]⟩
    (by decide) (by decide) rfl rfl (by decide) (by decide) rfl (by decide)
  exact ⟨h.2.2.1, h.2.2.2.2⟩

/-- C8 as stated fails: with previous IP `1.2.3.4`, current IP `5.6.7.8` and an edit
request answered with status 500, the run still writes `5.6.7.8` to the cache file. -/
theorem cache_written_after_failed_edit :
    FileOp.writeFile [10, 12, 0, 7, 53, 46, 54, 46, 55, 46, 56] ∈
      (run (exampleServer 200 500 (ascii "5.6.7.8") [exampleRecord]) exampleSecrets
        (gob.encodeString (ascii "1.2.3.4")) exampleArgs).world.fileOps ∧
    gob.encodeString (ascii "5.6.7.8") = some [10, 12, 0, 7, 53, 46, 54, 46, 55, 46, 56] ∧
    ((run (exampleServer 200 500 (ascii "5.6.7.8") [exampleRecord]) exampleSecrets
        (gob.encodeString (ascii "1.2.3.4")) exampleArgs).world.http.filter
        (fun x => x.request.isEdit)).map (fun x => x.response.map (fun r => r.statusCode)) =
      [some 500] := by
  decide

/-- C8, amended: when a run in update mode writes the cache file, what it writes is the
encoding of the IP that its call of `getIP` returned (the empty string when the ping call
gave a status other than 200), the file holds it at the end, every request of the run got
a response, of whatever status, and the run ends normally. -/
theorem cache_write_holds_resolved_ip (e : Env) (s : Secrets) (file : Option (List Nat))
    (prog d : GoString) (rest : List GoString) (data : List Nat)
    (hd : d ≠ ascii "ping")
    (hw : FileOp.writeFile data ∈ (run e s file (prog :: d :: rest)).world.fileOps) :
    ∃ ip err w1, getIP e (World.init s file) = .ok (ip, err) w1 ∧
      gob.encodeString ip = some data ∧
      (run e s file (prog :: d :: rest)).world.file = some data ∧
      (∀ x ∈ (run e s file (prog :: d :: rest)).world.http, x.response.isSome = true) ∧
      ∃ u, run e s file (prog :: d :: rest) = .ok () u := by
  rw [run, main_update e _ prog d rest hd] at hw ⊢
  cases hping : e.respond [] (pingRequest s) with
  | none =>
    rw [getIP_init_none e s file hping] at hw
    simp [Outcome.andThen, Outcome.world] at hw
  | some r1 =>
    have key : ∀ (ip : GoString) (err : Option Error) (w1 : World),
        getIP e (World.init s file) = .ok (ip, err) w1 → w1.currentIP = ip →
        w1.fileOps = [] → w1.http = [{ request := pingRequest s, response := some r1 }] →
        FileOp.writeFile data ∈
          ((getIP e (World.init s file)).andThen
            fun (ip, _) w => updateBranch e ip w).world.fileOps →
        ∃ ip err w1, getIP e (World.init s file) = .ok (ip, err) w1 ∧
          gob.encodeString ip = some data ∧
          ((getIP e (World.init s file)).andThen
            fun (ip, _) w => updateBranch e ip w).world.file = some data ∧
          (∀ x ∈ ((getIP e (World.init s file)).andThen
            fun (ip, _) w => updateBranch e ip w).world.http, x.response.isSome = true) ∧
          ∃ u, ((getIP e (World.init s file)).andThen
            fun (ip, _) w => updateBranch e ip w) = .ok () u := by
      intro ip err w1 hget hcur hops hhttp hw
      obtain ⟨l, ops, g1, g2, _, g4⟩ := updateBranch_spec e ip w1 hcur
      rw [hget] at hw ⊢
      simp only [Outcome.andThen] at hw ⊢
      rw [g2, hops] at hw
      have hw2 : FileOp.writeFile data ∈ ops := by simpa using hw
      obtain ⟨k1, k2, k3, k4⟩ := g4 data hw2
      refine ⟨ip, err, w1, rfl, k1, k2, ?_, k4⟩
      intro x hx
      rw [g1, hhttp] at hx
      rcases List.mem_append.1 hx with hx | hx
      · simp only [List.mem_singleton] at hx
        subst hx
        rfl
      · exact k3 x hx
    by_cases h200 : r1.statusCode = 200
    · exact key _ _ _ (getIP_init_ok e s file r1 hping h200) rfl rfl rfl hw
    · exact key _ _ _ (getIP_init_fail e s file r1 hping h200) rfl rfl rfl hw

/-- C8, amended, on the run with the failed edit. -/
theorem cache_write_holds_resolved_ip_witness :
    ∃ ip err w1,
      getIP (exampleServer 200 500 (ascii "5.6.7.8") [exampleRecord])
        (World.init exampleSecrets (gob.encodeString (ascii "1.2.3.4"))) = .ok (ip, err) w1 ∧
      gob.encodeString ip = some [10, 12, 0, 7, 53, 46, 54, 46, 55, 46, 56] ∧
      (run (exampleServer 200 500 (ascii "5.6.7.8") [exampleRecord]) exampleSecrets
        (gob.encodeString (ascii "1.2.3.4")) [ascii "pddc", ascii "example.com"]).world.file =
        some [10, 12, 0, 7, 53, 46, 54, 46, 55, 46, 56] ∧
      (∀ x ∈ (run (exampleServer 200 500 (ascii "5.6.7.8") [exampleRecord]) exampleSecrets
        (gob.encodeString (ascii "1.2.3.4")) [ascii "pddc", ascii "example.com"]).world.http,
        x.response.isSome = true) ∧
      ∃ u, run (exampleServer 200 500 (ascii "5.6.7.8") [exampleRecord]) exampleSecrets
        (gob.encodeString (ascii "1.2.3.4")) [ascii "pddc", ascii "example.com"] = .ok () u :=
  cache_write_holds_resolved_ip (exampleServer 200 500 (ascii "5.6.7.8") [exampleRecord])
    exampleSecrets (gob.encodeString (ascii "1.2.3.4")) (ascii "pddc") (ascii "example.com") []
    [10, 12, 0, 7, 53, 46, 54, 46, 55, 46, 56] (by decide) (by decide)

/-- C9 as stated fails: without a cache file, a run whose ping call gets status 500 sends
the ping request and no retrieve request. -/
theorem failed_ping_without_cache_fetches_nothing :
    (exampleServer 500 200 [] [exampleRecord]).respond [] (pingRequest exampleSecrets) =
      some { statusCode := 500, yourIp := [], records := [exampleRecord] } ∧
    (run (exampleServer 500 200 [] [exampleRecord]) exampleSecrets none
        exampleArgs).world.http.map (fun x => x.request) = [pingRequest exampleSecrets] ∧
    (run (exampleServer 500 200 [] [exampleRecord]) exampleSecrets none
        exampleArgs).world.http.filter (fun x => x.request.isRetrieve) = [] := by
  decide

/-- C9, amended: when the ping call gets a status other than 200 in update mode, the run
goes on to read the previous-IP store and compares what the store gives with the empty
string: the records are fetched exactly when the store gives a non-empty previous IP. -/
theorem failed_ping_fetches_iff_prev_nonempty (e : Env) (s : Secrets)
    (file : Option (List Nat)) (prog d : GoString) (rest : List GoString) (r1 : Response)
    (hd : d ≠ ascii "ping")
    (hping : e.respond [] (pingRequest s) = some r1) (hfail : r1.statusCode ≠ 200) :
    FileOp.openFile ∈ (run e s file (prog :: d :: rest)).world.fileOps ∧
    ((∃ x ∈ (run e s file (prog :: d :: rest)).world.http, x.request.isRetrieve = true) ↔
      (getPrevIP (World.init s file)).1.1 ≠ []) := by
  rw [run, main_update e _ prog d rest hd, getIP_init_fail e s file r1 hping hfail]
  simp only [Outcome.andThen]
  obtain ⟨l, ops, g1, g2, g3, _⟩ := updateBranch_spec e []
    { secrets := s, domain := [], currentIP := [], file := file,
      http := [{ request := pingRequest s, response := some r1 }], fileOps := [] } rfl
  rw [g1, g2]
  refine ⟨by simp, ?_⟩
  have g3' : (∃ x ∈ l, x.request.isRetrieve = true) ↔
      [] ≠ (getPrevIP (World.init s file)).1.1 := by
    rw [getPrevIP_fst_init] at g3
    exact g3
  rw [ne_comm, ← g3']
  simp [isRetrieve_pingRequest]

/-- C9, amended, on a run with a cache file that holds `1.2.3.4`. -/
theorem failed_ping_fetches_iff_prev_nonempty_witness :
    FileOp.openFile ∈ (run (exampleServer 500 200 [] [exampleRecord]) exampleSecrets
      (gob.encodeString (ascii "1.2.3.4")) [ascii "pddc", ascii "example.com"]).world.fileOps ∧
    ((∃ x ∈ (run (exampleServer 500 200 [] [exampleRecord]) exampleSecrets
      (gob.encodeString (ascii "1.2.3.4")) [ascii "pddc", ascii "example.com"]).world.http,
        x.request.isRetrieve = true) ↔
      (getPrevIP (World.init exampleSecrets (gob.encodeString (ascii "1.2.3.4")))).1.1 ≠ []) :=
  failed_ping_fetches_iff_prev_nonempty (exampleServer 500 200 [] [exampleRecord])
    exampleSecrets (gob.encodeString (ascii "1.2.3.4")) (ascii "pddc") (ascii "example.com") []
    { statusCode := 500, yourIp := [], records := [exampleRecord] } (by decide) rfl (by decide)

/-- C3 fails on the code: on the command line `pddc example.com` the run posts to
`/dns/retrieve/` and to `/dns/edit//{id}`, without the domain, it also edits the record of
`www.other.org`, and it names the record of `example.com` itself "example". -/
theorem update_mode_ignores_domain_argument :
    (run (exampleServer 200 200 (ascii "5.6.7.8") [exampleRecord, otherRecord]) exampleSecrets
        none exampleArgs).world.http.map (fun x => x.request.url) =
      [BASE_PATH ++ ascii "/ping", BASE_PATH ++ ascii "/dns/retrieve/",
       BASE_PATH ++ ascii "/dns/edit//1", BASE_PATH ++ ascii "/dns/edit//2"] ∧
    (run (exampleServer 200 200 (ascii "5.6.7.8") [exampleRecord, otherRecord]) exampleSecrets
        none exampleArgs).world.http.map (fun x => x.request.body) =
      [Body.secrets exampleSecrets, Body.secrets exampleSecrets,
       Body.edit { key := ascii "pk1", secret := ascii "sk1", name := ascii "example",
                   recordType := ascii "A", content := ascii "5.6.7.8", ttl := ascii "600" },
       Body.edit { key := ascii "pk1", secret := ascii "sk1", name := ascii "www",
                   recordType := ascii "A", content := ascii "5.6.7.8", ttl := ascii "600" }] ∧
    filterRecords (ascii "example.com") (ascii "5.6.7.8") [exampleRecord, otherRecord] =
      [{ exampleRecord with name := [], content := ascii "5.6.7.8" }] := by
  decide

end Pddc
